import Mathlib

/-!
Shallow embedding of the pop-tools regional tracer budget pipeline
(`pop_tools/budget.py`) and the grid-geometry derivation (`pop_tools/grid.py`).

Arrays are modelled as total functions from indices to exact rationals;
`xarray` fields that may contain NaN (produced by `DataArray.where`) are
modelled as `Option ℚ` valued functions, with `none` playing the role of NaN
(arithmetic on `none` propagates `none`, as NaN does).  The vertical axis of a
3-D field is modelled as a `List` of horizontal slabs, which makes the
`isel`/`shift`/`diff`/`concat` operations of the source direct list
operations.  All grid sizes are explicit parameters.
-/

namespace PopTools

/-- A plain 2-D horizontal field (no missing values), indexed (nlat, nlon). -/
abbrev Field2 : Type := Nat → Nat → ℚ

/-- A 2-D horizontal field with missing values (`none` models NaN). -/
abbrev OField2 : Type := Nat → Nat → Option ℚ

/-- A boolean region mask over horizontal cells. -/
abbrev Mask2 : Type := Nat → Nat → Bool

/-- An integer-valued 2-D field (topography / region classification). -/
abbrev IField2 : Type := Nat → Nat → Int

/-- NaN-propagating subtraction on optional rationals: `x - NaN = NaN`,
`NaN - x = NaN`. -/
def oSub : Option ℚ → Option ℚ → Option ℚ
  | some a, some b => some (a - b)
  | _, _ => none

/-- Pointwise `oSub` on 2-D fields. -/
def oSub2 (a b : OField2) : OField2 := fun i j => oSub (a i j) (b i j)

/-- Embedding of `DataArray.where(mask)` on a field that may already contain NaN:
cells where the mask is false become NaN. -/
def whereO (m : Mask2) (f : OField2) : OField2 := fun i j => if m i j then f i j else none

/-- Embedding of `DataArray.where(mask)` on a plain field. -/
def whereQ (m : Mask2) (f : Field2) : OField2 :=
  fun i j => if m i j then some (f i j) else none

/-- Embedding of `DataArray.fillna(0)`: every NaN becomes `0`. -/
def fillna0 (f : OField2) : OField2 := fun i j => some ((f i j).getD 0)

/-- Pointwise negation of a field (`-da`); negation of NaN is NaN. -/
def oneg (da : OField2) : OField2 := fun i j => (da i j).map (fun a => -a)

/-- Embedding of `numpy`/`xarray` `roll(nlon=-1)` applied to a mask:
entry `j` comes from entry `(j+1) % nlon`. -/
def rollLonNeg1 (m : Mask2) (nlon : Nat) : Mask2 := fun i j => m i ((j + 1) % nlon)

/-- Embedding of `numpy`/`xarray` `roll(nlat=-1)` applied to a mask:
entry `i` comes from entry `(i+1) % nlat`. -/
def rollLatNeg1 (m : Mask2) (nlat : Nat) : Mask2 := fun i j => m ((i + 1) % nlat) j

/-- Embedding of `roll(nlon=1)` applied to a field with missing values:
entry `j` comes from entry `(j-1) mod nlon` (periodic wrap in longitude). -/
def rollLonPos1 (f : OField2) (nlon : Nat) : OField2 :=
  fun i j => f i ((j + nlon - 1) % nlon)

/-- Embedding of `roll(nlat=1)` applied to a field with missing values:
entry `i` comes from entry `(i-1) mod nlat`. -/
def rollLatPos1 (f : OField2) (nlat : Nat) : OField2 :=
  fun i j => f ((i + nlat - 1) % nlat) j

/-- Embedding of `budget.py` constant `NMOLS_TO_MOLYR = 1e-9 * 86400.0 * 365.0`, taken
exactly over the rationals. -/
def NMOLS_TO_MOLYR : ℚ := (1 / 1000000000) * 86400 * 365

/-- Embedding of `budget.py` `_convert_units`: multiply by `NMOLS_TO_MOLYR` and label the
result `mol/yr`.  The attribute label is modelled as the second component. -/
def convert_units (ds : Field2) : Field2 × String :=
  (fun i j => ds i j * NMOLS_TO_MOLYR, "mol/yr")

/-- Embedding of `budget.py` `_compute_horizontal_divergence`, zonal branch:
`da.where(mask.roll(nlon=-1)).roll(nlon=1) - da.where(mask)`. -/
def hdiv_zonal (da : OField2) (mask : Mask2) (nlon : Nat) : OField2 :=
  fun i j =>
    oSub (rollLonPos1 (whereO (rollLonNeg1 mask nlon) da) nlon i j)
      (whereO mask da i j)

/-- Embedding of `budget.py` `_compute_horizontal_divergence`, meridional branch, exactly
as written in the source: the mask is rolled with `nlat=-1`, but the masked
field is rolled back with `nlon=1` (not `nlat=1`):
`da.where(mask.roll(nlat=-1)).roll(nlon=1) - da.where(mask)`. -/
def hdiv_meridional (da : OField2) (mask : Mask2) (nlat nlon : Nat) : OField2 :=
  fun i j =>
    oSub (rollLonPos1 (whereO (rollLatNeg1 mask nlat) da) nlon i j)
      (whereO mask da i j)

/-- Embedding of `budget.py` `_compute_horizontal_divergence`: dispatch on the direction
string, raising `ValueError` for anything other than
`zonal` / `meridional`. -/
def compute_horizontal_divergence (da : OField2) (mask : Mask2) (nlat nlon : Nat)
    (direction : String) : Except String OField2 :=
  if direction = "zonal" then Except.ok (hdiv_zonal da mask nlon)
  else if direction = "meridional" then Except.ok (hdiv_meridional da mask nlat nlon)
  else Except.error "Please input either zonal or meridional for direction."

/-- Modelled from the spec: the meridional case of horizontal divergence as
"the direct analogue in the latitudinal axis" of the zonal case — roll the
mask one row with `nlat=-1`, apply it, roll the masked result back with
`nlat=1`, and subtract the directly masked field, so that only the
latitudinal axis is shifted. -/
def hdiv_meridional_spec (da : OField2) (mask : Mask2) (nlat : Nat) : OField2 :=
  fun i j =>
    oSub (rollLatPos1 (whereO (rollLatNeg1 mask nlat) da) nlat i j)
      (whereO mask da i j)

/-- Embedding of `budget.py` `_compute_vertical_divergence`: concatenate a zero-valued cap
above the shallowest layer, then take the `diff` along the vertical axis
(`diff` maps `v` to the list with entry `k` equal to `v[k+1] - v[k]`). -/
def compute_vertical_divergence (da : List OField2) : List OField2 :=
  let zero_cap : OField2 := fun _ _ => some 0
  let v := zero_cap :: da
  List.zipWith oSub2 (v.drop 1) v

/-- The index of the first `false` in a list of booleans, if any. -/
def firstFalseIdx : List Bool → Option Nat
  | [] => none
  | b :: bs => if b then (firstFalseIdx bs).map (· + 1) else some 0

/-- Embedding of `numpy.argmin` on a boolean array (`False < True`): the index of the
first `false` entry, or `0` when every entry is `true` (first occurrence of
the minimum). -/
def argmin_bool (bs : List Bool) : Nat := (firstFalseIdx bs).getD 0

/-- Embedding of `budget.py` `_compute_kmax`: `kmax = (z <= budget_depth).argmin() - 1`,
mapped to the sentinel `none` when the result is `-1`. -/
def compute_kmax (budget_depth : ℚ) (z : List ℚ) : Option Nat :=
  let kmax : Int := (argmin_bool (z.map (fun zk => decide (zk ≤ budget_depth))) : Int) - 1
  if kmax = -1 then none else some kmax.toNat

/-- The depth-limit derivation in `regional_tracer_budget`: with no requested
depth the sentinel is kept; otherwise the requested depth in metres is
converted to centimetres (`budget_depth *= 100`) and passed to
`_compute_kmax`. -/
def regional_kmax (budget_depth : Option ℚ) (z : List ℚ) : Option Nat :=
  match budget_depth with
  | none => none
  | some d => compute_kmax (d * 100) z

/-- The `ValueError` message raised by `regional_tracer_budget` when
`mask_int` is `None`. -/
def missing_mask_int_error : String :=
  "Please supply an integer for your mask via the mask_int keyword."

/-- The mask-resolution prefix of `budget.py` `regional_tracer_budget`:
default the mask to the grid's `REGION_MASK` when none is supplied, raise
when `mask_int` is `None`, then equality-test the mask against `mask_int`. -/
def resolve_region_mask (mask : Option IField2) (mask_int : Option Int)
    (region_mask : IField2) : Except String Mask2 :=
  let m := match mask with
    | none => region_mask
    | some mm => mm
  match mask_int with
  | none => Except.error missing_mask_int_error
  | some v => Except.ok (fun i j => m i j == v)

/-- Embedding of `budget.py` `_convert_to_tendency` for a normalizer that carries the
vertical dimension (cell volume): if a depth limit is active the normalizer
is truncated to `isel(z_t=slice(0, kmax + 1))`, then the field is multiplied
by the normalizer and the sign. -/
def convert_to_tendency_vol (ds : List OField2) (vol : List Field2) (sign : ℚ)
    (kmax : Option Nat) : List OField2 :=
  let vol2 := match kmax with
    | some k => vol.take (k + 1)
    | none => vol
  List.zipWith (fun f v => fun i j => (f i j).map (fun a => a * v i j * sign)) ds vol2

/-- Embedding of `budget.py` `_compute_vertical_advection` up to (not including) the
vertical sum: slice to `kmax + 2` layers when a depth limit is active, apply
the region mask, convert to tendency with the normalizer truncated one layer
deeper (`kmax = kmax + 1`), form `WT.shift(z_t=-1).fillna(0) - WT`, and drop
the deepest (extra) layer with `isel(z_t=slice(0, -1))`. -/
def compute_vertical_advection_pre (WT : List Field2) (vol : List Field2)
    (mask : Mask2) (kmax : Option Nat) : List OField2 :=
  let ds := match kmax with
    | some k => WT.take (k + 2)
    | none => WT
  let dsm := ds.map (whereQ mask)
  let dst := match kmax with
    | some k => convert_to_tendency_vol dsm vol 1 (some (k + 1))
    | none => convert_to_tendency_vol dsm vol 1 none
  let shifted := ((dst.drop 1) ++ [fun _ _ => none]).map fillna0
  (List.zipWith oSub2 shifted dst).dropLast

/-- Vertical sum with `xarray`'s default `skipna=True`: NaN contributes 0. -/
def sumZ (xs : List OField2) : Field2 :=
  fun i j => (xs.map (fun f => (f i j).getD 0)).sum

/-- Embedding of `budget.py` `_compute_vertical_advection`: the layer-difference field,
summed over depth and converted to `mol/yr`. -/
def compute_vertical_advection (WT : List Field2) (vol : List Field2)
    (mask : Mask2) (kmax : Option Nat) : Field2 × String :=
  convert_units (sumZ (compute_vertical_advection_pre WT vol mask kmax))

/-- The per-layer masked tendency `WT * vol` (sign `1`) entering the vertical
advection divergence, expressed against the untruncated input lists.  Used to
state what `compute_vertical_advection_pre` produces. -/
def tendency_at (WT vol : List Field2) (mask : Mask2) (k : Nat) : OField2 :=
  fun i j =>
    if mask i j then (WT[k]?).bind (fun w => (vol[k]?).map (fun v => w i j * v i j))
    else none

/-- Accessor for a 3-D field: the value at layer `k`, cell `(i, j)`; out of
range counts as missing. -/
def atZ (xs : List OField2) (k i j : Nat) : Option ℚ :=
  (xs[k]?).bind (fun f => f i j)

/-- Embedding of `grid.py` `get_grid` derivation of `DXT` from `HTN`:
`DXT[1:, :] = 0.5*(HTN[:nlat-1, :] + HTN[1:, :])` and
`DXT[0, :] = 0.5*(HTN[0, :] + HTN[nlat-1, :])`. -/
def DXT (HTN : Field2) (nlat : Nat) : Field2 := fun i j =>
  if i = 0 then 0.5 * (HTN 0 j + HTN (nlat - 1) j)
  else 0.5 * (HTN (i - 1) j + HTN i j)

/-- Embedding of `grid.py` `get_grid` derivation of `DYT` from `HTE`:
`DYT[:, 1:] = 0.5*(HTE[:, :nlon-1] + HTE[:, 1:])` and
`DYT[:, 0] = 0.5*(HTE[:, nlon-1] + HTE[:, 0])`. -/
def DYT (HTE : Field2) (nlon : Nat) : Field2 := fun i j =>
  if j = 0 then 0.5 * (HTE i (nlon - 1) + HTE i 0)
  else 0.5 * (HTE i (j - 1) + HTE i j)

/-- Embedding of `grid.py` `get_grid` derivation of `DXU` from `HTN`:
`DXU[:, :nlon-1] = 0.5*(HTN[:, :nlon-1] + HTN[:, 1:])` and
`DXU[:, nlon-1] = 0.5*(HTN[:, nlon-1] + HTN[:, 0])`. -/
def DXU (HTN : Field2) (nlon : Nat) : Field2 := fun i j =>
  if j = nlon - 1 then 0.5 * (HTN i (nlon - 1) + HTN i 0)
  else 0.5 * (HTN i j + HTN i (j + 1))

/-- Embedding of `grid.py` `get_grid` derivation of `DYU` from `HTE`:
`DYU[:nlat-1, :] = 0.5*(HTE[:nlat-1, :] + HTE[1:, :])` and
`DYU[nlat-1, :] = 0.5*(HTE[nlat-1, :] + HTE[0, :])`. -/
def DYU (HTE : Field2) (nlat : Nat) : Field2 := fun i j =>
  if i = nlat - 1 then 0.5 * (HTE (nlat - 1) j + HTE 0 j)
  else 0.5 * (HTE i j + HTE (i + 1) j)

/-- Python index `i - 1` into an axis of length `n`, for `i < n`: wraps to
`n - 1` at `i = 0` (negative indexing), is plainly `i - 1` otherwise. -/
def prevIdx (i n : Nat) : Nat := (i + n - 1) % n

/-- Embedding of `grid.py` `_generate_KMU`:
`KMU[i, j] = min(KMT[i, j], KMT[i-1, j], KMT[i, j-1], KMT[i-1, j-1])`
with Python's wraparound semantics for index `-1`. -/
def generate_KMU (KMT : IField2) (nlat nlon : Nat) : IField2 := fun i j =>
  min (min (min (KMT i j) (KMT (prevIdx i nlat) j)) (KMT i (prevIdx j nlon)))
    (KMT (prevIdx i nlat) (prevIdx j nlon))

/-- Concrete 2x2 flux field used as the failing input for the meridional
divergence branch. -/
def da_c1 : OField2 := fun i j =>
  some (if i = 0 then (if j = 0 then 0 else 1) else (if j = 0 then 10 else 11))

/-- Concrete 2x2 region mask selecting only the cell `(0, 0)`. -/
def mask_c1 : Mask2 := fun i j => i == 0 && j == 0

/- ------------------------------------------------------------------ -/
/- Helper lemmas                                                        -/
/- ------------------------------------------------------------------ -/

theorem oSub_some_zero (x : Option ℚ) : oSub x (some 0) = x := by
  cases x with
  | none => rfl
  | some a => simp [oSub]

theorem oSub_map_neg (x y : Option ℚ) :
    oSub (x.map fun a => -a) (y.map fun a => -a) = (oSub x y).map (fun a => -a) := by
  cases x <;> cases y <;> simp [oSub]
  ring

theorem whereO_oneg (m : Mask2) (da : OField2) (i j : Nat) :
    whereO m (oneg da) i j = ((whereO m da) i j).map (fun a => -a) := by
  by_cases h : m i j <;> simp [whereO, oneg, h]

theorem firstFalseIdx_eq_some_of :
    ∀ (bs : List Bool) (m : Nat), m < bs.length →
      (∀ l, l < m → bs.getD l true = true) → bs.getD m true = false →
      firstFalseIdx bs = some m := by
  intro bs
  induction bs with
  | nil => intro m hm _ _; simp at hm
  | cons b bs ih =>
    intro m hm hall hf
    cases m with
    | zero =>
      have hb : b = false := hf
      simp [firstFalseIdx, hb]
    | succ m =>
      have hb : b = true := hall 0 (Nat.succ_pos m)
      have hrec : firstFalseIdx bs = some m := by
        refine ih m (by simpa using hm) (fun l hl => ?_) (by simpa using hf)
        have := hall (l + 1) (by omega)
        simpa using this
      simp [firstFalseIdx, hb, hrec]

theorem firstFalseIdx_eq_none_of :
    ∀ (bs : List Bool), (∀ l, l < bs.length → bs.getD l true = true) →
      firstFalseIdx bs = none := by
  intro bs
  induction bs with
  | nil => intro _; rfl
  | cons b bs ih =>
    intro hall
    have hb : b = true := hall 0 (by simp)
    have hrec : firstFalseIdx bs = none := by
      refine ih (fun l hl => ?_)
      have := hall (l + 1) (by simpa using hl)
      simpa using this
    simp [firstFalseIdx, hb, hrec]

theorem getD_map_le (z : List ℚ) (d : ℚ) (l : Nat) (hl : l < z.length) :
    (z.map fun zk => decide (zk ≤ d)).getD l true = decide (z.getD l 0 ≤ d) := by
  rw [List.getD_eq_getElem _ _ (by simpa using hl), List.getElem_map,
    List.getD_eq_getElem _ _ hl]

/- ------------------------------------------------------------------ -/
/- Claim theorems                                                       -/
/- ------------------------------------------------------------------ -/

/-- Claim C9: the unit-conversion helper multiplies by exactly
(1e-9) * 86400 * 365 (equal to 1971/62500 as a rational), labels the result
'mol/yr', and the conversion round-trips: dividing a converted value by the
same constant returns the original value exactly over the rationals. -/
theorem unit_conversion_roundtrip :
    NMOLS_TO_MOLYR = (1 / 1000000000) * 86400 * 365 ∧
    NMOLS_TO_MOLYR = 1971 / 62500 ∧
    (∀ ds : Field2, (convert_units ds).2 = "mol/yr") ∧
    (∀ ds : Field2, ∀ i j, (convert_units ds).1 i j = ds i j * NMOLS_TO_MOLYR) ∧
    (∀ v : ℚ, v * NMOLS_TO_MOLYR / NMOLS_TO_MOLYR = v) := by
  refine ⟨rfl, by norm_num [NMOLS_TO_MOLYR], fun ds => rfl, fun ds i j => rfl, fun v => ?_⟩
  rw [mul_div_assoc, div_self (by norm_num [NMOLS_TO_MOLYR]), mul_one]

/-- Claim C5: the derived cell widths use the asymmetric boundary rules of
`get_grid`: the center-point width `DXT` at latitudinal row 0 averages the
raw width at row 0 with row nlat-1, the corner-point width `DXU` at
longitudinal column nlon-1 averages column nlon-1 with column 0 (and `DYT`,
`DYU` follow the analogous rules on the other axis), while interior cells
average the two adjacent raw widths along the relevant axis. -/
theorem cell_width_boundary_rules (HTN HTE : Field2) (nlat nlon i j : Nat)
    (hi : 0 < i) (hj : 0 < j) (hi2 : i + 1 < nlat) (hj2 : j + 1 < nlon) :
    DXT HTN nlat 0 j = 0.5 * (HTN 0 j + HTN (nlat - 1) j) ∧
    DXT HTN nlat i j = 0.5 * (HTN (i - 1) j + HTN i j) ∧
    DXU HTN nlon i (nlon - 1) = 0.5 * (HTN i (nlon - 1) + HTN i 0) ∧
    DXU HTN nlon i j = 0.5 * (HTN i j + HTN i (j + 1)) ∧
    DYT HTE nlon i 0 = 0.5 * (HTE i (nlon - 1) + HTE i 0) ∧
    DYT HTE nlon i j = 0.5 * (HTE i (j - 1) + HTE i j) ∧
    DYU HTE nlat (nlat - 1) j = 0.5 * (HTE (nlat - 1) j + HTE 0 j) ∧
    DYU HTE nlat i j = 0.5 * (HTE i j + HTE (i + 1) j) := by
  refine ⟨by simp [DXT], ?_, by simp [DXU], ?_, by simp [DYT], ?_, by simp [DYU], ?_⟩
  · simp [DXT, Nat.pos_iff_ne_zero.mp hi]
  · rw [DXU, if_neg (by omega)]
  · simp [DYT, Nat.pos_iff_ne_zero.mp hj]
  · rw [DYU, if_neg (by omega)]

/-- Concrete raw width array for the C5 witness. -/
def HTN_c5 : Field2 := fun i j => (i : ℚ) + 10 * (j : ℚ)

/-- Concrete raw width array for the C5 witness. -/
def HTE_c5 : Field2 := fun i j => 2 * (i : ℚ) + (j : ℚ)

/-- Witness for C5 at the concrete 3x3 grid, interior cell (1, 1). -/
theorem cell_width_boundary_rules_witness :
    (0 < 1 ∧ 0 < 1 ∧ 1 + 1 < 3 ∧ 1 + 1 < 3) ∧
    (DXT HTN_c5 3 0 1 = 0.5 * (HTN_c5 0 1 + HTN_c5 (3 - 1) 1) ∧
      DXT HTN_c5 3 1 1 = 0.5 * (HTN_c5 (1 - 1) 1 + HTN_c5 1 1) ∧
      DXU HTN_c5 3 1 (3 - 1) = 0.5 * (HTN_c5 1 (3 - 1) + HTN_c5 1 0) ∧
      DXU HTN_c5 3 1 1 = 0.5 * (HTN_c5 1 1 + HTN_c5 1 (1 + 1)) ∧
      DYT HTE_c5 3 1 0 = 0.5 * (HTE_c5 1 (3 - 1) + HTE_c5 1 0) ∧
      DYT HTE_c5 3 1 1 = 0.5 * (HTE_c5 1 (1 - 1) + HTE_c5 1 1) ∧
      DYU HTE_c5 3 (3 - 1) 1 = 0.5 * (HTE_c5 (3 - 1) 1 + HTE_c5 0 1) ∧
      DYU HTE_c5 3 1 1 = 0.5 * (HTE_c5 1 1 + HTE_c5 (1 + 1) 1)) :=
  ⟨by decide,
    cell_width_boundary_rules HTN_c5 HTE_c5 3 3 1 1 (by decide) (by decide) (by decide)
      (by decide)⟩

/-- Claim C6: the derived corner-point maximum-valid-layer index `KMU` is the
minimum of the four bounding center-point indices (with the source's
wraparound indexing for row/column -1), hence bounded by each of them. -/
theorem KMU_min_of_four (KMT : IField2) (nlat nlon : Nat)
    (_hnn : ∀ i j, 0 ≤ KMT i j) (i j : Nat) :
    generate_KMU KMT nlat nlon i j =
      min (min (min (KMT i j) (KMT (prevIdx i nlat) j)) (KMT i (prevIdx j nlon)))
        (KMT (prevIdx i nlat) (prevIdx j nlon)) ∧
    generate_KMU KMT nlat nlon i j ≤ KMT i j ∧
    generate_KMU KMT nlat nlon i j ≤ KMT (prevIdx i nlat) j ∧
    generate_KMU KMT nlat nlon i j ≤ KMT i (prevIdx j nlon) ∧
    generate_KMU KMT nlat nlon i j ≤ KMT (prevIdx i nlat) (prevIdx j nlon) := by
  refine ⟨rfl, ?_, ?_, ?_, ?_⟩ <;> simp only [generate_KMU] <;> omega

/-- Concrete topography array for the C6 witness. -/
def KMT_c6 : IField2 := fun i j => (i : Int) + (j : Int) + 1

/-- Witness for C6 at the concrete 2x2 grid, cell (0, 0). -/
theorem KMU_min_of_four_witness :
    (∀ i j, 0 ≤ KMT_c6 i j) ∧
    (generate_KMU KMT_c6 2 2 0 0 =
        min (min (min (KMT_c6 0 0) (KMT_c6 (prevIdx 0 2) 0)) (KMT_c6 0 (prevIdx 0 2)))
          (KMT_c6 (prevIdx 0 2) (prevIdx 0 2)) ∧
      generate_KMU KMT_c6 2 2 0 0 ≤ KMT_c6 0 0 ∧
      generate_KMU KMT_c6 2 2 0 0 ≤ KMT_c6 (prevIdx 0 2) 0 ∧
      generate_KMU KMT_c6 2 2 0 0 ≤ KMT_c6 0 (prevIdx 0 2) ∧
      generate_KMU KMT_c6 2 2 0 0 ≤ KMT_c6 (prevIdx 0 2) (prevIdx 0 2)) :=
  ⟨fun i j => by simp [KMT_c6]; positivity,
    KMU_min_of_four KMT_c6 2 2 (fun i j => by simp [KMT_c6]; positivity) 0 0⟩

/-- Claim C10: a requested budget depth that, after the metres-to-centimetres
conversion, is strictly shallower than the bottom depth of the shallowest
layer yields the unset/full-depth sentinel - the same result as requesting no
depth limit at all. -/
theorem regional_kmax_shallow (d : ℚ) (z0 : ℚ) (zrest : List ℚ)
    (hd : d * 100 < z0) :
    regional_kmax (some d) (z0 :: zrest) = none ∧
    regional_kmax none (z0 :: zrest) = none := by
  have h1 : decide (z0 ≤ d * 100) = false := decide_eq_false (not_le.mpr hd)
  refine ⟨?_, rfl⟩
  simp [regional_kmax, compute_kmax, argmin_bool, firstFalseIdx, h1]

/-- Witness for C10: a 0 m request on a grid whose shallowest layer bottom is
at 10 cm. -/
theorem regional_kmax_shallow_witness :
    ((0 : ℚ) * 100 < 10) ∧
    (regional_kmax (some 0) ((10 : ℚ) :: [20]) = none ∧
      regional_kmax none ((10 : ℚ) :: [20]) = none) :=
  ⟨by norm_num, regional_kmax_shallow 0 10 [20] (by norm_num)⟩

/-- Claim C3 counterexample: even when the caller supplies a region mask
directly, omitting the classification integer still raises the
missing-mask-integer error, contrary to the claim that the error occurs
exactly when the mask is requested by default classification. -/
theorem resolve_region_mask_counterexample :
    resolve_region_mask (some (fun _ _ => 1)) none (fun _ _ => 0) =
      Except.error missing_mask_int_error := rfl

/-- Claim C3 (amended): the missing-mask-integer error is raised exactly when
no classification integer is supplied, regardless of whether a mask is
supplied; when an integer is supplied, the mask used is the supplied mask
(or, by default, the grid region classification) equality-tested against the
integer - a supplied mask is also equality-tested, not used directly. -/
theorem resolve_region_mask_requires_mask_int :
    ∀ (mask : Option IField2) (rm : IField2),
      (resolve_region_mask mask none rm = Except.error missing_mask_int_error) ∧
      (∀ v : Int, resolve_region_mask mask (some v) rm =
        Except.ok (fun i j => (mask.getD rm) i j == v)) := by
  intro mask rm
  refine ⟨?_, fun v => ?_⟩
  · cases mask <;> rfl
  · cases mask <;> rfl

/-- Claim C8: the horizontal-divergence helper is antisymmetric in the input
flux: negating the flux field pointwise negates the output pointwise, in both
the zonal and the meridional branch. -/
theorem horizontal_divergence_antisym :
    ∀ (da : OField2) (m : Mask2) (nlat nlon i j : Nat),
      hdiv_zonal (oneg da) m nlon i j =
        (hdiv_zonal da m nlon i j).map (fun a => -a) ∧
      hdiv_meridional (oneg da) m nlat nlon i j =
        (hdiv_meridional da m nlat nlon i j).map (fun a => -a) := by
  intro da m nlat nlon i j
  constructor
  · show oSub (whereO (rollLonNeg1 m nlon) (oneg da) i ((j + nlon - 1) % nlon))
      (whereO m (oneg da) i j) = _
    rw [whereO_oneg, whereO_oneg, oSub_map_neg]
    rfl
  · show oSub (whereO (rollLatNeg1 m nlat) (oneg da) i ((j + nlon - 1) % nlon))
      (whereO m (oneg da) i j) = _
    rw [whereO_oneg, whereO_oneg, oSub_map_neg]
    rfl

/-- Claim C1 (code bug evidence): on a 2x2 grid with the mask selecting only
cell (0, 0), the meridional branch of `_compute_horizontal_divergence`
(which rolls the masked field back along `nlon`, not `nlat`) returns a
missing value at (0, 0), while the latitudinal analogue of the zonal case
described by the spec returns 10 there. -/
theorem meridional_divergence_rolls_longitude :
    compute_horizontal_divergence da_c1 mask_c1 2 2 "meridional" =
      Except.ok (hdiv_meridional da_c1 mask_c1 2 2) ∧
    hdiv_meridional da_c1 mask_c1 2 2 0 0 = none ∧
    hdiv_meridional_spec da_c1 mask_c1 2 0 0 = some 10 ∧
    hdiv_meridional da_c1 mask_c1 2 2 0 0 ≠ hdiv_meridional_spec da_c1 mask_c1 2 0 0 := by
  have h1 : hdiv_meridional da_c1 mask_c1 2 2 0 0 = none := by decide
  have h2 : hdiv_meridional_spec da_c1 mask_c1 2 0 0 = some 10 := by
    norm_num [hdiv_meridional_spec, rollLatPos1, rollLatNeg1, whereO, oSub, da_c1, mask_c1]
  exact ⟨rfl, h1, h2, by rw [h1, h2]; simp⟩

theorem oSub_none_left (y : Option ℚ) : oSub none y = none := by cases y <;> rfl

theorem oSub_none_right (x : Option ℚ) : oSub x none = none := by cases x <;> rfl

theorem oSub_some_some (a b : ℚ) : oSub (some a) (some b) = some (a - b) := rfl

/-- Claim C2 counterexample: on the strictly increasing layer-bottom array
[10, 20], requesting exactly the deepest layer bottom (20, the bottom depth
of layer 1) yields the sentinel `none`, not `some 1` as the claim states. -/
theorem compute_kmax_deepest_bottom_counterexample :
    List.Sorted (fun a b : ℚ => a < b) [10, 20] ∧
    ([(10 : ℚ), 20].getD 1 0 = 20) ∧
    compute_kmax 20 [(10 : ℚ), 20] = none ∧
    compute_kmax 20 [(10 : ℚ), 20] ≠ some 1 := by
  refine ⟨?_, by simp, by decide, by decide⟩
  simp [List.sorted_cons]
  norm_num

/-- Claim C2 (amended): on a strictly increasing layer-bottom array, the
derivation returns the index of the first layer whose bottom depth exceeds
the request minus one whenever that first index is positive; in particular a
request equal to the bottom depth of a layer strictly above the deepest one
yields that layer's index, while a request equal to or exceeding the deepest
layer bottom yields the unset/full-depth sentinel. -/
theorem compute_kmax_first_exceed (z : List ℚ) (d : ℚ)
    (hs : List.Sorted (fun a b : ℚ => a < b) z) :
    (∀ m, m < z.length → 0 < m → (∀ l, l < m → z.getD l 0 ≤ d) → d < z.getD m 0 →
        compute_kmax d z = some (m - 1)) ∧
    (∀ k, k + 1 < z.length → d = z.getD k 0 → compute_kmax d z = some k) ∧
    (z ≠ [] → z.getD (z.length - 1) 0 ≤ d → compute_kmax d z = none) := by
  have sorted_get : ∀ a b : Nat, a < z.length → b < z.length → a < b →
      z.getD a 0 < z.getD b 0 := by
    intro a b ha hb hab
    rw [List.getD_eq_getElem _ _ ha, List.getD_eq_getElem _ _ hb]
    have := List.pairwise_iff_get.mp hs ⟨a, ha⟩ ⟨b, hb⟩ hab
    simpa using this
  have p1 : ∀ m, m < z.length → 0 < m → (∀ l, l < m → z.getD l 0 ≤ d) →
      d < z.getD m 0 → compute_kmax d z = some (m - 1) := by
    intro m hm hpos hall hd
    have hff : firstFalseIdx (z.map fun zk => decide (zk ≤ d)) = some m := by
      apply firstFalseIdx_eq_some_of
      · simpa using hm
      · intro l hl
        rw [getD_map_le z d l (lt_trans hl hm)]
        exact decide_eq_true (hall l hl)
      · rw [getD_map_le z d m hm]
        exact decide_eq_false (not_le.mpr hd)
    simp only [compute_kmax, argmin_bool, hff, Option.getD_some]
    rw [if_neg (by omega)]
    congr 1
    omega
  refine ⟨p1, ?_, ?_⟩
  · intro k hk hde
    have hall : ∀ l, l < k + 1 → z.getD l 0 ≤ d := by
      intro l hl
      rcases Nat.lt_or_ge l k with hlk | hlk
      · exact le_of_lt (hde ▸ sorted_get l k (by omega) (by omega) hlk)
      · have : l = k := by omega
        rw [this, hde]
    have hd2 : d < z.getD (k + 1) 0 := hde ▸ sorted_get k (k + 1) (by omega) hk (by omega)
    have := p1 (k + 1) hk (Nat.succ_pos k) hall hd2
    simpa using this
  · intro hne hlast
    have hlen : 0 < z.length := List.length_pos.mpr hne
    have hall : ∀ l, l < (z.map fun zk => decide (zk ≤ d)).length →
        (z.map fun zk => decide (zk ≤ d)).getD l true = true := by
      intro l hl
      have hl' : l < z.length := by simpa using hl
      rw [getD_map_le z d l hl']
      apply decide_eq_true
      rcases Nat.lt_or_ge l (z.length - 1) with hcase | hcase
      · exact le_of_lt (lt_of_lt_of_le (sorted_get l (z.length - 1) hl' (by omega) hcase) hlast)
      · have : l = z.length - 1 := by omega
        rw [this]; exact hlast
    have hff := firstFalseIdx_eq_none_of _ hall
    simp [compute_kmax, argmin_bool, hff]

/-- Witness for C2 (amended): on [10, 20], requesting depth 10 (= bottom of
layer 0, strictly above the deepest layer) yields kmax = 0. -/
theorem compute_kmax_first_exceed_witness :
    (List.Sorted (fun a b : ℚ => a < b) [10, 20] ∧ 0 + 1 < ([(10 : ℚ), 20]).length ∧
      (10 : ℚ) = ([(10 : ℚ), 20]).getD 0 0) ∧
    compute_kmax 10 [(10 : ℚ), 20] = some 0 :=
  ⟨⟨by simp [List.sorted_cons]; norm_num, by decide, rfl⟩,
    (compute_kmax_first_exceed [10, 20] 10 (by simp [List.sorted_cons]; norm_num)).2.1 0
      (by decide) rfl⟩

theorem cvd_eq_zipWith (da : List OField2) :
    compute_vertical_divergence da =
      List.zipWith oSub2 da ((fun _ _ => some (0 : ℚ)) :: da) := by
  simp [compute_vertical_divergence]

theorem cvd_atZ (da : List OField2) (k i j : Nat) :
    atZ (compute_vertical_divergence da) k i j =
      oSub (atZ da k i j) (if k = 0 then some 0 else atZ da (k - 1) i j) := by
  rw [cvd_eq_zipWith]
  unfold atZ
  rw [List.getElem?_zipWith']
  cases k with
  | zero =>
    cases h : da[0]? with
    | none => simp [h, oSub_none_left]
    | some f => simp [h, oSub2]
  | succ k' =>
    simp only [List.getElem?_cons_succ, Nat.succ_ne_zero, if_false, Nat.add_sub_cancel]
    cases h1 : da[k' + 1]? with
    | none => simp [h1, oSub_none_left]
    | some f =>
      cases h2 : da[k']? with
      | none => simp [h1, h2, oSub_none_right]
      | some g => simp [h1, h2, oSub2]

/-- Claim C7: the vertical-divergence helper preserves the number of layers;
its output at layer k is the input at layer k minus the input at layer k-1,
with an implicit zero layer above the top (so layer 0 of the output equals
layer 0 of the input); and on a uniformly zero field it is zero
everywhere. -/
theorem vertical_divergence_spec (da : List OField2) :
    (compute_vertical_divergence da).length = da.length ∧
    (∀ k i j, atZ (compute_vertical_divergence da) k i j =
        oSub (atZ da k i j) (if k = 0 then some 0 else atZ da (k - 1) i j)) ∧
    (∀ i j, atZ (compute_vertical_divergence da) 0 i j = atZ da 0 i j) ∧
    (∀ n k i j, k < n →
        atZ (compute_vertical_divergence (List.replicate n (fun _ _ => some (0 : ℚ)))) k i j
          = some 0) := by
  refine ⟨?_, fun k i j => cvd_atZ da k i j, ?_, ?_⟩
  · rw [cvd_eq_zipWith]
    simp
  · intro i j
    rw [cvd_atZ]
    simp [oSub_some_zero]
  · intro n k i j hk
    have hz : ∀ m, m < n →
        atZ (List.replicate n (fun _ _ => some (0 : ℚ))) m i j = some 0 := by
      intro m hm
      simp [atZ, List.getElem?_replicate, hm]
    cases k with
    | zero =>
      rw [cvd_atZ]
      simp [hz 0 hk, oSub_some_some]
    | succ k' =>
      rw [cvd_atZ]
      simp [hz _ hk, hz k' (by omega), oSub_some_some]

/-- Witness for C7: the zero-field conjunct evaluated on a two-layer zero
field at layer 1. -/
theorem vertical_divergence_spec_witness :
    (1 < 2) ∧
    atZ (compute_vertical_divergence (List.replicate 2 (fun _ _ => some (0 : ℚ)))) 1 0 0
      = some 0 :=
  ⟨by decide,
    (vertical_divergence_spec (List.replicate 2 (fun _ _ => some 0))).2.2.2 2 1 0 0
      (by decide)⟩

theorem vadv_dst_getElem (WT vol : List Field2) (mask : Mask2) (K k : Nat)
    (hlen : K + 2 ≤ WT.length) (hvol : WT.length ≤ vol.length) (hk : k < K + 2) :
    (convert_to_tendency_vol ((WT.take (K + 2)).map (whereQ mask)) vol 1 (some (K + 1)))[k]?
      = some (fun i j => ((whereQ mask (WT.getD k (fun _ _ => 0))) i j).map
          (fun a => a * (vol.getD k (fun _ _ => 0)) i j * 1)) := by
  have hkW : k < WT.length := by omega
  have hkV : k < vol.length := by omega
  have h1 : ((WT.take (K + 2)).map (whereQ mask))[k]?
      = some (whereQ mask (WT.getD k (fun _ _ => 0))) := by
    rw [List.getElem?_map, List.getElem?_take, if_pos hk,
      List.getElem?_eq_getElem hkW, List.getD_eq_getElem _ _ hkW]
    rfl
  have h2 : (vol.take (K + 1 + 1))[k]? = some (vol.getD k (fun _ _ => 0)) := by
    rw [List.getElem?_take, if_pos (by omega), List.getElem?_eq_getElem hkV,
      List.getD_eq_getElem _ _ hkV]
  unfold convert_to_tendency_vol
  rw [List.getElem?_zipWith', h1, h2]
  rfl

theorem vadv_pre_length (WT vol : List Field2) (mask : Mask2) (K : Nat)
    (hlen : K + 2 ≤ WT.length) (hvol : WT.length ≤ vol.length) :
    (compute_vertical_advection_pre WT vol mask (some K)).length = K + 1 := by
  simp only [compute_vertical_advection_pre, convert_to_tendency_vol,
    List.length_dropLast, List.length_zipWith, List.length_map, List.length_append,
    List.length_drop, List.length_take, List.length_cons, List.length_nil]
  omega

theorem vadv_pre_atZ (WT vol : List Field2) (mask : Mask2) (K k : Nat)
    (hlen : K + 2 ≤ WT.length) (hvol : WT.length ≤ vol.length) (hk : k ≤ K) (i j : Nat) :
    atZ (compute_vertical_advection_pre WT vol mask (some K)) k i j =
      oSub (tendency_at WT vol mask (k + 1) i j) (tendency_at WT vol mask k i j) := by
  have hpre : compute_vertical_advection_pre WT vol mask (some K) =
      (List.zipWith oSub2
        (((convert_to_tendency_vol ((WT.take (K + 2)).map (whereQ mask)) vol 1
            (some (K + 1))).drop 1 ++ [fun _ _ => none]).map fillna0)
        (convert_to_tendency_vol ((WT.take (K + 2)).map (whereQ mask)) vol 1
          (some (K + 1)))).dropLast := rfl
  have hdstlen :
      (convert_to_tendency_vol ((WT.take (K + 2)).map (whereQ mask)) vol 1
        (some (K + 1))).length = K + 2 := by
    simp only [convert_to_tendency_vol, List.length_zipWith, List.length_map,
      List.length_take]
    omega
  have hg1 := vadv_dst_getElem WT vol mask K (k + 1) hlen hvol (by omega)
  have hg0 := vadv_dst_getElem WT vol mask K k hlen hvol (by omega)
  rw [hpre]
  unfold atZ
  rw [List.getElem?_dropLast, if_pos (by
    simp only [List.length_zipWith, List.length_map, List.length_append,
      List.length_drop, List.length_cons, List.length_nil, hdstlen]
    omega)]
  rw [List.getElem?_zipWith', List.getElem?_map, List.getElem?_append,
    if_pos (by simp only [List.length_drop, hdstlen]; omega),
    List.getElem?_drop]
  rw [show 1 + k = k + 1 by omega, hg1, hg0]
  have hb1 : k + 1 < WT.length := by omega
  have hb0 : k < WT.length := by omega
  have hv1 : k + 1 < vol.length := by omega
  have hv0 : k < vol.length := by omega
  by_cases hm : mask i j
  · simp [fillna0, oSub2, whereQ, hm, tendency_at,
      List.getElem?_eq_getElem hb1, List.getElem?_eq_getElem hv1,
      List.getElem?_eq_getElem hb0, List.getElem?_eq_getElem hv0,
      List.getD_eq_getElem _ _ hb1, List.getD_eq_getElem _ _ hv1,
      List.getD_eq_getElem _ _ hb0, List.getD_eq_getElem _ _ hv0,
      oSub_some_some, mul_one]
  · simp [fillna0, oSub2, whereQ, hm, tendency_at, oSub_none_right, oSub]

/-- Claim C4: with a depth limit K, the vertical-advection pipeline produces
K+1 retained layers, and the value at each retained layer k is the masked
volume-tendency at layer k+1 minus the masked volume-tendency at layer k
(the layer K entry consuming the extra loaded layer K+1, whose normalizer is
one layer deeper than the lateral-advection truncation); depth summation and
unit conversion happen only after the extra layer is dropped. -/
theorem vertical_advection_truncation_spec (WT vol : List Field2) (mask : Mask2)
    (K : Nat) (hlen : K + 2 ≤ WT.length) (hvol : WT.length ≤ vol.length) :
    (compute_vertical_advection_pre WT vol mask (some K)).length = K + 1 ∧
    (∀ k, k ≤ K → ∀ i j,
        atZ (compute_vertical_advection_pre WT vol mask (some K)) k i j =
          oSub (tendency_at WT vol mask (k + 1) i j) (tendency_at WT vol mask k i j)) ∧
    (∀ i j, (compute_vertical_advection WT vol mask (some K)).1 i j =
        sumZ (compute_vertical_advection_pre WT vol mask (some K)) i j * NMOLS_TO_MOLYR) ∧
    (compute_vertical_advection WT vol mask (some K)).2 = "mol/yr" :=
  ⟨vadv_pre_length WT vol mask K hlen hvol,
    fun k hk i j => vadv_pre_atZ WT vol mask K k hlen hvol hk i j,
    fun _ _ => rfl, rfl⟩

/-- Concrete three-layer flux field for the C4 witness. -/
def WT_c4 : List Field2 := [fun _ _ => 1, fun _ _ => 2, fun _ _ => 4]

/-- Concrete three-layer cell-volume field for the C4 witness. -/
def vol_c4 : List Field2 := [fun _ _ => 10, fun _ _ => 20, fun _ _ => 30]

/-- Concrete all-true mask for the C4 witness. -/
def mask_c4 : Mask2 := fun _ _ => true

/-- Witness for C4 at a concrete three-layer column with kmax = 0. -/
theorem vertical_advection_truncation_spec_witness :
    (0 + 2 ≤ WT_c4.length ∧ WT_c4.length ≤ vol_c4.length) ∧
    ((compute_vertical_advection_pre WT_c4 vol_c4 mask_c4 (some 0)).length = 0 + 1 ∧
      (∀ k, k ≤ 0 → ∀ i j,
          atZ (compute_vertical_advection_pre WT_c4 vol_c4 mask_c4 (some 0)) k i j =
            oSub (tendency_at WT_c4 vol_c4 mask_c4 (k + 1) i j)
              (tendency_at WT_c4 vol_c4 mask_c4 k i j)) ∧
      (∀ i j, (compute_vertical_advection WT_c4 vol_c4 mask_c4 (some 0)).1 i j =
          sumZ (compute_vertical_advection_pre WT_c4 vol_c4 mask_c4 (some 0)) i j *
            NMOLS_TO_MOLYR) ∧
      (compute_vertical_advection WT_c4 vol_c4 mask_c4 (some 0)).2 = "mol/yr") :=
  ⟨⟨by decide, by decide⟩,
    vertical_advection_truncation_spec WT_c4 vol_c4 mask_c4 0 (by decide) (by decide)⟩

end PopTools
